import Mathlib

/-
Verification of the estimation/selection logic of hf_model_checker.py
(repository Adversing/hf-model-checker).

The Python source is shallowly embedded as follows.

Machine floats are modelled as exact rationals: every arithmetic operation
performed by the program (division by 1024^3, multiplication, addition,
comparison) is translated to the corresponding operation on rational numbers.
Byte sizes are natural numbers.

Python strings are Lean strings; the string operations the program uses
(the containment test of the in operator, str.upper, str.split, str.rstrip,
str.startswith, str.endswith) are redefined here over the underlying
character lists so that all definitions reduce inside the kernel.

The quantization multiplier table QUANT_MULTIPLIERS is loaded at runtime from
quant_multipliers.json, which is external configuration not contained in the
repository; following the specification it is a mapping from scheme label to
multiplier whose iteration order is its stored (insertion) order.  It is
modelled as an explicit association list parameter, preserving order, and the
theorems below quantify over it.

Console rendering and the HuggingFace API are modelled by an Outcome type
recording which message or table the analyzer produces, and by a lookup
function String to Option (List SibFile) standing for api.model_info: none
models the raised exception for a missing or private model, and the model
crash outcome stands for an uncaught Python exception.
-/

namespace HFChecker

/-! ### Python string primitives -/

/-- Occurrence of the character list pat inside s, scanning left to right:
the model of the Python expression pat in s. -/
def subListB (pat : List Char) : List Char → Bool
  | [] => pat.isEmpty
  | c :: t => pat.isPrefixOf (c :: t) || subListB pat t

/-- Python pat in s for strings. -/
def pyIn (pat s : String) : Bool := subListB pat.data s.data

/-- Python s.upper(), restricted to ASCII as all names handled by the tool. -/
def pyUpper (s : String) : String := ⟨s.data.map Char.toUpper⟩

/-- Python s.rstrip(c) over the character list. -/
def pyRstrip (c : Char) (s : List Char) : List Char :=
  (s.reverse.dropWhile (fun x => x = c)).reverse

/-- Split s at the first occurrence of sep (sep nonempty): returns the part
before it and, when sep occurs, the part after it.  This is the model of
Python s.split(sep, 1). -/
def breakOnL (sep : List Char) : List Char → List Char × Option (List Char)
  | [] => ([], none)
  | c :: t =>
    if sep.isPrefixOf (c :: t) then ([], some ((c :: t).drop sep.length))
    else
      let r := breakOnL sep t
      (c :: r.1, r.2)

/-- Python s.split(sep, 1) packaged for strings: the component before the
first occurrence of sep, and, when present, everything after it. -/
def breakOnS (sep s : String) : String × Option String :=
  let r := breakOnL sep.data s.data
  (⟨r.1⟩, r.2.map (fun l => ⟨l⟩))

/-- Python s.startswith(p). -/
def pyStartsWith (s p : String) : Bool := p.data.isPrefixOf s.data

/-- Python s.endswith(p). -/
def pyEndsWith (s p : String) : Bool := p.data.isSuffixOf s.data

/-! ### Data model -/

/-- The quantization multiplier table QUANT_MULTIPLIERS: scheme label to
multiplier, in stored iteration order (Python dicts iterate in insertion
order). -/
abbrev QuantTable := List (String × ℚ)

/-- One entry of model_info(...).siblings: a repository file name and its
size in bytes. -/
structure SibFile where
  rfilename : String
  size : ℕ
deriving DecidableEq

/-! ### estimate_ram_requirement (source lines 43-55) -/

/-- Embedding of estimate_ram_requirement: convert the byte size to GB, take
the multiplier of the first table key occurring in the uppercased name
(default 2.5), and add the 0.1 attention overhead. -/
def estimate_ram_requirement (table : QuantTable) (file_name : String)
    (file_size_bytes : ℕ) : ℚ :=
  let size_gb : ℚ := (file_size_bytes : ℚ) / (1024 ^ 3)
  let file_upper := pyUpper file_name
  let overhead_multiplier : ℚ :=
    match table.find? (fun kv => pyIn kv.1 file_upper) with
    | some kv => kv.2
    | none => 5 / 2
  let base_ram := size_gb * overhead_multiplier
  let attention_overhead := size_gb * (1 / 10)
  base_ram + attention_overhead

/-! ### get_best_quantization (source lines 31-41) -/

/-- Embedding of get_best_quantization: restrict the table to the available
quantization labels, keep entries whose requirement fits below the larger of
RAM and VRAM, and return the label of the last survivor, or the sentinel
message when none survives. -/
def get_best_quantization (table : QuantTable) (available_ram_gb
    available_vram_gb model_size_gb : ℚ) (available_quants : List String) :
    String :=
  let max_memory := max available_ram_gb available_vram_gb
  let filtered_quants := table.filter (fun kv => available_quants.contains kv.1)
  let suitable_quants := filtered_quants.foldl
    (fun acc kv =>
      if model_size_gb * (kv.2 + 1 / 10) ≤ max_memory then acc ++ [kv.1]
      else acc) []
  match suitable_quants.getLast? with
  | some q => q
  | none => "Model too large for available memory"

/-! ### get_performance_label (source lines 57-67) -/

/-- Embedding of get_performance_label.  The Python function appends the
numeric figures to the returned string; they are omitted here since no check
performed on the label by the program (substring tests for Too large,
GPU-Ready, Ready, Will be slow) can be affected by the digits, and the
numeric figures are carried separately by the Outcome type. -/
def get_performance_label (estimated_ram_needed user_ram_gb vram_gb : ℚ) :
    String :=
  if vram_gb ≥ estimated_ram_needed then "[green]GPU-Ready[/green]"
  else if estimated_ram_needed > user_ram_gb then "[red]Too large[/red]"
  else if estimated_ram_needed > user_ram_gb * (1 / 2) then
    "[yellow]Will be slow[/yellow]"
  else "[green]Ready[/green]"

/-! ### group_split_files (source lines 69-96) -/

/-- One value of the grouped dictionary: accumulated byte size and member
files. -/
structure QuantGroup where
  size : ℕ
  files : List SibFile
deriving DecidableEq

/-- The grouped dictionary, as an association list in key insertion order
(Python dict semantics). -/
abbrev Grouped := List (String × QuantGroup)

/-- The size-variant detection of group_split_files lines 78-87: the first of
_L, _M, _S, _XS, _XXS occurring in the uppercased file name, or empty. -/
def sizeVariant (filename_upper : String) : String :=
  if pyIn "_L" filename_upper then "_L"
  else if pyIn "_M" filename_upper then "_M"
  else if pyIn "_S" filename_upper then "_S"
  else if pyIn "_XS" filename_upper then "_XS"
  else if pyIn "_XXS" filename_upper then "_XXS"
  else ""

/-- The quant_type computed by group_split_files lines 72-89 for one file
name: the first table key occurring in the uppercased name, concatenated
with the detected size variant; none when no key occurs. -/
def quantLabel (table : QuantTable) (filename : String) : Option String :=
  let filename_upper := pyUpper filename
  match table.find? (fun kv => pyIn kv.1 filename_upper) with
  | none => none
  | some kv => some (kv.1 ++ sizeVariant filename_upper)

/-- Update of the grouped dictionary by one file under a given label: add the
size and append the file to the existing entry, or append a fresh entry at
the end (Python dicts keep first-insertion key order). -/
def addToGroup (g : Grouped) (label : String) (f : SibFile) : Grouped :=
  match g with
  | [] => [(label, ⟨f.size, [f]⟩)]
  | (k, grp) :: rest =>
    if k = label then (k, ⟨grp.size + f.size, grp.files ++ [f]⟩) :: rest
    else (k, grp) :: addToGroup rest label f

/-- Embedding of group_split_files.  A file with no recognized key is
skipped; the Python truthiness test if quant_type also skips an empty
label. -/
def group_split_files (table : QuantTable) (files : List SibFile) : Grouped :=
  files.foldl
    (fun grouped f =>
      match quantLabel table f.rfilename with
      | none => grouped
      | some quant_type =>
        if quant_type = "" then grouped else addToGroup grouped quant_type f)
    []

/-! ### analyze_huggingface_url (source lines 98-245) -/

/-- One entry of the viable_quants list built at lines 171-177:
(quant_type, file_size_gb, performance_label). -/
abbrev VQ := String × ℚ × String

/-- The sort key comparison of viable_quants.sort(key=lambda x: x[1]) at
line 179: ascending size in GB. -/
def vqLE (a b : VQ) : Prop := a.2.1 ≤ b.2.1

instance : DecidableRel vqLE := fun a b =>
  inferInstanceAs (Decidable (a.2.1 ≤ b.2.1))

instance : IsTotal VQ vqLE := ⟨fun a b => le_total a.2.1 b.2.1⟩

instance : IsTrans VQ vqLE := ⟨fun _ _ _ hab hbc => le_trans hab hbc⟩

/-- Python min(l, key=key) for a nonempty list: the first element with the
least key (min replaces the current best only on a strictly smaller key).
Returns none on an empty list, where Python raises ValueError. -/
def pyMinBy (key : VQ → ℚ) : List VQ → Option VQ
  | [] => none
  | x :: xs => some (xs.foldl (fun b a => if key a < key b then a else b) x)

/-- Python max(l, key=key) for a nonempty list: the first element with the
greatest key. -/
def pyMaxBy (key : VQ → ℚ) : List VQ → Option VQ
  | [] => none
  | x :: xs => some (xs.foldl (fun b a => if key a > key b then a else b) x)

/-- Lines 169-179: estimate and classify every group, keep those whose label
does not contain Too large, and sort ascending by size.  Python list.sort is
stable; List.insertionSort with a total preorder is the corresponding stable
sort. -/
def viableQuants (table : QuantTable) (ram_gb vram_gb : ℚ)
    (grouped : Grouped) : List VQ :=
  List.insertionSort vqLE
    (grouped.foldl
      (fun acc e =>
        let estimated_ram_needed :=
          estimate_ram_requirement table e.1 e.2.size
        let performance_label :=
          get_performance_label estimated_ram_needed ram_gb vram_gb
        if pyIn "Too large" performance_label then acc
        else acc ++ [(e.1, ((e.2.size : ℚ) / (1024 ^ 3), performance_label))])
      [])

/-- Line 189: the viable entries whose label contains GPU-Ready. -/
def gpu_ready_quants (viable : List VQ) : List VQ :=
  viable.filter (fun e => pyIn "GPU-Ready" e.2.2)

/-- Line 190: the viable entries whose label contains Ready but not
GPU-Ready. -/
def ready_quants (viable : List VQ) : List VQ :=
  viable.filter (fun e => pyIn "Ready" e.2.2 && !pyIn "GPU-Ready" e.2.2)

/-- Line 191: the viable entries whose label contains Will be slow. -/
def slow_quants (viable : List VQ) : List VQ :=
  viable.filter (fun e => pyIn "Will be slow" e.2.2)

/-- Lines 193-202: the recommended quantization chosen from the (nonempty)
viable list.  none models the ValueError Python would raise on min/max of an
empty list. -/
def recommendQuant (viable : List VQ) : Option String :=
  if viable.all (fun e => pyIn "Will be slow" e.2.2) then
    (pyMinBy (fun x => x.2.1) viable).map (fun e => e.1)
  else if !(gpu_ready_quants viable).isEmpty then
    (pyMaxBy (fun x => x.2.1) (gpu_ready_quants viable)).map (fun e => e.1)
  else if !(ready_quants viable).isEmpty then
    (pyMaxBy (fun x => x.2.1) (ready_quants viable)).map (fun e => e.1)
  else (pyMinBy (fun x => x.2.1) (slow_quants viable)).map (fun e => e.1)

/-- Everything the analyzer can do for one URL, abstracting the console: each
constructor records one terminal behaviour together with the data the
rendered panel or message would show.  crash models an uncaught Python
exception. -/
inductive Outcome where
  | invalidUrl : Outcome
  | modelNotFound : Outcome
  | blobAnalysis (file_path : String) (file_size_gb estimated_ram_needed : ℚ)
      (performance_label : String) : Outcome
  | noGGUFFiles : Outcome
  | ggufAnalysis (viable : List VQ) (recommended : String) : Outcome
  | noModelFiles : Outcome
  | wholeRepoAnalysis (total_size_gb estimated_ram_needed : ℚ)
      (performance_label : String) : Outcome
  | crash : Outcome
deriving DecidableEq

/-- Lines 219-245: the plain weight-file branch, summing .safetensors and
.bin files (restricted to the subfolder when one was given and nonempty,
per Python truthiness at line 224). -/
def plainWeights (table : QuantTable) (ram_gb vram_gb : ℚ)
    (all_files : List SibFile) (subfolder : Option String)
    (repo_id : String) : Outcome :=
  let extensions := [".safetensors", ".bin"]
  let total_size_bytes := all_files.foldl
    (fun acc f =>
      if extensions.any (fun ext => pyEndsWith f.rfilename ext) then
        match subfolder with
        | some sub =>
          if sub ≠ "" && !pyStartsWith f.rfilename sub then acc
          else acc + f.size
        | none => acc + f.size
      else acc) 0
  if total_size_bytes = 0 then Outcome.noModelFiles
  else
    let estimated_ram_needed :=
      estimate_ram_requirement table repo_id total_size_bytes
    Outcome.wholeRepoAnalysis ((total_size_bytes : ℚ) / (1024 ^ 3))
      estimated_ram_needed
      (get_performance_label estimated_ram_needed ram_gb vram_gb)

/-- Lines 155-245 common to the non-blob paths: recompute repo_id and
subfolder from a /tree/main/ marker, fetch the listing, run the GGUF branch
when the repository id contains GGUF, and otherwise (or when no group is
viable) fall to the plain weight-file branch. -/
def analyzeRepo (table : QuantTable)
    (modelInfo : String → Option (List SibFile)) (ram_gb vram_gb : ℚ)
    (repo_id_in path_part : String) : Outcome :=
  let rs :=
    if pyIn "/tree/main/" path_part then
      let b := breakOnS "/tree/main/" path_part
      (b.1, b.2)
    else (repo_id_in, none)
  let repo_id := rs.1
  let subfolder := rs.2
  match modelInfo repo_id with
  | none => Outcome.crash
  | some all_files =>
    if pyIn "GGUF" (pyUpper repo_id) then
      let gguf_files := all_files.filter
        (fun f => pyEndsWith f.rfilename ".gguf")
      if gguf_files.isEmpty then Outcome.noGGUFFiles
      else
        let viable := viableQuants table ram_gb vram_gb
          (group_split_files table gguf_files)
        if viable.isEmpty then
          plainWeights table ram_gb vram_gb all_files subfolder repo_id
        else
          match recommendQuant viable with
          | none => Outcome.crash
          | some recommended => Outcome.ggufAnalysis viable recommended
    else plainWeights table ram_gb vram_gb all_files subfolder repo_id

/-- Lines 103-104: rstrip trailing slashes and take parts[1] of the split on
the host marker: the piece between the first and second occurrence, or
everything after the marker when it occurs once.  none models the IndexError
when the split yields a single part. -/
def parsedPathPart (repo_url : String) : Option String :=
  let url := pyRstrip '/' repo_url.data
  match (breakOnL "huggingface.co/".data url).2 with
  | none => none
  | some rest => some ⟨(breakOnL "huggingface.co/".data rest).1⟩

/-- Lines 106-108: the repository id checked by the first model_info call. -/
def repoIdOf (path_part : String) : String :=
  if pyIn "/tree/main/" path_part then (breakOnS "/tree/main/" path_part).1
  else if pyIn "/blob/main/" path_part then
    (breakOnS "/blob/main/" path_part).1
  else path_part

/-- Embedding of analyze_huggingface_url.  modelInfo stands for
api.model_info: none is the exception raised for a missing or private
repository (caught only by the first call). -/
def analyze_huggingface_url (table : QuantTable)
    (modelInfo : String → Option (List SibFile)) (ram_gb vram_gb : ℚ)
    (repo_url : String) : Outcome :=
  if pyIn "huggingface.co/" repo_url then
    match parsedPathPart repo_url with
    | none => Outcome.crash
    | some path_part =>
      match modelInfo (repoIdOf path_part) with
      | none => Outcome.modelNotFound
      | some _ =>
        if pyIn "/blob/main/" path_part then
          let pieces := breakOnS "/blob/main/" path_part
          let repo_id := pieces.1
          let file_path := pieces.2.getD ""
          match modelInfo repo_id with
          | none => Outcome.crash
          | some all_files =>
            match all_files.find? (fun f => f.rfilename = file_path) with
            | some target =>
              let estimated_ram_needed :=
                estimate_ram_requirement table file_path target.size
              Outcome.blobAnalysis file_path ((target.size : ℚ) / (1024 ^ 3))
                estimated_ram_needed
                (get_performance_label estimated_ram_needed ram_gb vram_gb)
            | none =>
              analyzeRepo table modelInfo ram_gb vram_gb repo_id path_part
        else analyzeRepo table modelInfo ram_gb vram_gb path_part path_part
  else Outcome.invalidUrl

/-! ### Concrete fixtures used by witnesses and counterexamples -/

/-- A two-entry multiplier table with the keys of the specification example. -/
def T2 : QuantTable := [("Q4_K_M", 13 / 10), ("Q8_0", 2)]

/-- First shard of the specification example. -/
def fQ4a : SibFile := ⟨"model-Q4_K_M-00001.gguf", 4 * 1024 ^ 3⟩

/-- Second shard of the specification example. -/
def fQ4b : SibFile := ⟨"model-Q4_K_M-00002.gguf", 4 * 1024 ^ 3⟩

/-- The Q8_0 file of the specification example. -/
def fQ8 : SibFile := ⟨"model-Q8_0.gguf", 9 * 1024 ^ 3⟩

/-- A file matching no multiplier-table key. -/
def fOther : SibFile := ⟨"README.md", 10⟩

/-- The three files of the specification example. -/
def exampleFiles : List SibFile := [fQ4a, fQ4b, fQ8]

/-- A repository lookup knowing one GGUF repository with one file. -/
def miGGUF : String → Option (List SibFile) :=
  fun r =>
    if r = "TheBloke/X-GGUF" then some [⟨"model-Q4_K_M.gguf", 4 * 1024 ^ 3⟩]
    else none

/-- A repository lookup that fails on every identifier. -/
def miNone : String → Option (List SibFile) := fun _ => none

/-- A grouped dictionary out of size order, for the sorting witness. -/
def groupedDemo : Grouped :=
  [("Q8_0", ⟨9 * 1024 ^ 3, [fQ8]⟩),
   ("Q4_K_M_M", ⟨8 * 1024 ^ 3, [fQ4a, fQ4b]⟩)]

/-- A viable list with one Ready and one GPU-Ready entry. -/
def vDemo : List VQ :=
  [("A", (1, "[green]Ready[/green]")), ("B", (2, "[green]GPU-Ready[/green]"))]

/-- First-encounter deduplication: the order in which a Python dict built by
repeated insertion emits its keys. -/
def firstEnc (labels : List String) : List String :=
  labels.foldl (fun ks a => if a ∈ ks then ks else ks ++ [a]) []

/-- The label under which group_split_files actually files a SibFile: the
quant_type when it is truthy, none otherwise. -/
def emittedLabel (table : QuantTable) (f : SibFile) : Option String :=
  match quantLabel table f.rfilename with
  | none => none
  | some quant_type => if quant_type = "" then none else some quant_type

/-- One iteration of the group_split_files loop, phrased through
emittedLabel. -/
def stepEmit (table : QuantTable) (g : Grouped) (f : SibFile) : Grouped :=
  match emittedLabel table f with
  | none => g
  | some lab => addToGroup g lab f

/-- Invariant of the grouped dictionary: keys occur once, each recorded size
is the sum of the member sizes, and every member carries the label of its
group. -/
def GoodAcc (table : QuantTable) (g : Grouped) : Prop :=
  (g.map Prod.fst).Nodup ∧
  ∀ e ∈ g, e.2.size = (e.2.files.map SibFile.size).sum ∧
    ∀ f ∈ e.2.files, emittedLabel table f = some e.1

/-! ### Helper lemmas -/

/-- find? returns the element at the first index whose predicate holds. -/
theorem find?_eq_of_first {α : Type} (p : α → Bool) :
    ∀ (l : List α) (i : ℕ) (a : α), l[i]? = some a → p a = true →
      (∀ j, j < i → ∀ b, l[j]? = some b → p b = false) →
      l.find? p = some a := by
  intro l
  induction l with
  | nil => intro i a hget; simp at hget
  | cons x t ih =>
    intro i a hget hp hlt
    cases i with
    | zero =>
      simp only [List.getElem?_cons_zero, Option.some.injEq] at hget
      subst hget
      exact List.find?_cons_of_pos _ hp
    | succ n =>
      have hx : p x = false := hlt 0 (Nat.zero_lt_succ n) x (by simp)
      rw [List.find?_cons_of_neg _ (by simp [hx])]
      exact ih n a (by simpa using hget) hp
        (fun j hj b hb => hlt (j + 1) (Nat.succ_lt_succ hj) b (by simpa using hb))

/-- A predicate false on every element makes find? return none. -/
theorem find?_eq_none_of_all {α : Type} (p : α → Bool) (l : List α)
    (h : ∀ a ∈ l, p a = false) : l.find? p = none := by
  rw [List.find?_eq_none]
  intro a ha
  simp [h a ha]

/-- C3: estimate_ram_requirement converts the byte size to GB and multiplies
by m + 0.1 where m is the multiplier of the first table key (in stored
order) occurring in the uppercased label, and by 2.6 when no key occurs. -/
theorem c3_theorem (table : QuantTable) (name : String) (bytes : ℕ) :
    (∀ (i : ℕ) (k : String) (m : ℚ), table[i]? = some (k, m) →
      pyIn k (pyUpper name) = true →
      (∀ j, j < i → ∀ kv, table[j]? = some kv →
        pyIn kv.1 (pyUpper name) = false) →
      estimate_ram_requirement table name bytes
        = ((bytes : ℚ) / 1024 ^ 3) * (m + 1 / 10)) ∧
    ((∀ kv ∈ table, pyIn kv.1 (pyUpper name) = false) →
      estimate_ram_requirement table name bytes
        = ((bytes : ℚ) / 1024 ^ 3) * (26 / 10)) := by
  constructor
  · intro i k m hget hp hfirst
    have hf : table.find? (fun kv => pyIn kv.1 (pyUpper name)) = some (k, m) :=
      find?_eq_of_first _ table i (k, m) hget hp hfirst
    simp only [estimate_ram_requirement, hf]
    ring
  · intro hnone
    have hf : table.find? (fun kv => pyIn kv.1 (pyUpper name)) = none :=
      find?_eq_none_of_all _ table hnone
    simp only [estimate_ram_requirement, hf]
    ring

/-- The suitable_quants accumulation loop of get_best_quantization is a
filter of the table followed by projection to the keys. -/
theorem suitable_foldl_eq (limit : ℚ) (model_size_gb : ℚ) :
    ∀ (l : List (String × ℚ)) (acc : List String),
      l.foldl (fun acc kv =>
        if model_size_gb * (kv.2 + 1 / 10) ≤ limit then acc ++ [kv.1]
        else acc) acc
      = acc ++ (l.filter
          (fun kv => decide (model_size_gb * (kv.2 + 1 / 10) ≤ limit))).map
            Prod.fst := by
  intro l
  induction l with
  | nil => simp
  | cons x t ih =>
    intro acc
    by_cases h : model_size_gb * (x.2 + 1 / 10) ≤ limit <;>
      simp [List.foldl_cons, h, ih, List.filter_cons, -one_div]

/-- C4: get_best_quantization keeps the candidates whose requirement fits
below max(ram, vram), preserving table order, and returns the last
survivor, or the sentinel when none survives. -/
theorem c4_theorem (table : QuantTable)
    (available_ram_gb available_vram_gb model_size_gb : ℚ)
    (available_quants : List String) :
    (((table.filter (fun kv => available_quants.contains kv.1)).filter
        (fun kv => decide (model_size_gb * (kv.2 + 1 / 10)
          ≤ max available_ram_gb available_vram_gb))).map Prod.fst = [] →
      get_best_quantization table available_ram_gb available_vram_gb
        model_size_gb available_quants
        = "Model too large for available memory") ∧
    (∀ q, (((table.filter (fun kv => available_quants.contains kv.1)).filter
        (fun kv => decide (model_size_gb * (kv.2 + 1 / 10)
          ≤ max available_ram_gb available_vram_gb))).map
            Prod.fst).getLast? = some q →
      get_best_quantization table available_ram_gb available_vram_gb
        model_size_gb available_quants = q) := by
  have hfold := suitable_foldl_eq (max available_ram_gb available_vram_gb)
    model_size_gb (table.filter (fun kv => available_quants.contains kv.1)) []
  constructor
  · intro hempty
    simp only [get_best_quantization, hfold, List.nil_append, hempty,
      List.getLast?_nil]
  · intro q hlast
    simp only [get_best_quantization, hfold, List.nil_append, hlast]

/-- C5: get_performance_label applies its rules in order: GPU-Ready whenever
vram covers the need, else Too large above ram, else Will be slow above half
of ram, else Ready. -/
theorem c5_theorem (estimated_ram_needed user_ram_gb vram_gb : ℚ) :
    (vram_gb ≥ estimated_ram_needed →
      get_performance_label estimated_ram_needed user_ram_gb vram_gb
        = "[green]GPU-Ready[/green]") ∧
    (vram_gb < estimated_ram_needed → estimated_ram_needed > user_ram_gb →
      get_performance_label estimated_ram_needed user_ram_gb vram_gb
        = "[red]Too large[/red]") ∧
    (vram_gb < estimated_ram_needed → estimated_ram_needed ≤ user_ram_gb →
      estimated_ram_needed > user_ram_gb * (1 / 2) →
      get_performance_label estimated_ram_needed user_ram_gb vram_gb
        = "[yellow]Will be slow[/yellow]") ∧
    (vram_gb < estimated_ram_needed → estimated_ram_needed ≤ user_ram_gb →
      estimated_ram_needed ≤ user_ram_gb * (1 / 2) →
      get_performance_label estimated_ram_needed user_ram_gb vram_gb
        = "[green]Ready[/green]") := by
  refine ⟨fun h1 => ?_, fun h1 h2 => ?_, fun h1 h2 h3 => ?_,
    fun h1 h2 h3 => ?_⟩
  · simp [get_performance_label, h1]
  · simp [get_performance_label, not_le.2 h1, h2, -one_div]
  · simp [get_performance_label, not_le.2 h1, not_lt.2 h2, h3, -one_div]
  · simp [get_performance_label, not_le.2 h1, not_lt.2 h2, not_lt.2 h3,
      -one_div]

/-- The group_split_files fold coincides with the stepEmit fold. -/
theorem group_split_eq_stepEmit (table : QuantTable) :
    ∀ (files : List SibFile) (g : Grouped),
      files.foldl
        (fun grouped f =>
          match quantLabel table f.rfilename with
          | none => grouped
          | some quant_type =>
            if quant_type = "" then grouped
            else addToGroup grouped quant_type f) g
      = files.foldl (stepEmit table) g := by
  intro files
  induction files with
  | nil => intro g; rfl
  | cons x t ih =>
    intro g
    rw [List.foldl_cons, List.foldl_cons, ih]
    congr 1
    unfold stepEmit emittedLabel
    cases h : quantLabel table x.rfilename with
    | none => rfl
    | some qt => by_cases hq : qt = "" <;> simp [hq]

/-- Keys after addToGroup: unchanged when the label is present, appended
otherwise. -/
theorem addToGroup_keys (label : String) (f : SibFile) :
    ∀ g : Grouped, (addToGroup g label f).map Prod.fst
      = if label ∈ g.map Prod.fst then g.map Prod.fst
        else g.map Prod.fst ++ [label] := by
  intro g
  induction g with
  | nil => simp [addToGroup]
  | cons p rest ih =>
    obtain ⟨k, grp⟩ := p
    by_cases hk : k = label
    · subst hk; simp [addToGroup]
    · by_cases hm : label ∈ rest.map Prod.fst <;>
        simp [addToGroup, hk, Ne.symm hk, ih, hm]

/-- addToGroup raises the total recorded size by the size of the added
file. -/
theorem addToGroup_total (label : String) (f : SibFile) :
    ∀ g : Grouped, ((addToGroup g label f).map (fun e => e.2.size)).sum
      = (g.map (fun e => e.2.size)).sum + f.size := by
  intro g
  induction g with
  | nil => simp [addToGroup]
  | cons p rest ih =>
    obtain ⟨k, grp⟩ := p
    by_cases hk : k = label
    · subst hk; simp [addToGroup]; omega
    · simp [addToGroup, hk, ih]; omega

/-- Membership in addToGroup comes from an untouched entry, from the updated
entry, or from the fresh entry. -/
theorem addToGroup_mem_cases (label : String) (f : SibFile) :
    ∀ (g : Grouped) (e : String × QuantGroup), e ∈ addToGroup g label f →
      e ∈ g ∨
      (∃ grp, (label, grp) ∈ g ∧
        e = (label, ⟨grp.size + f.size, grp.files ++ [f]⟩)) ∨
      e = (label, ⟨f.size, [f]⟩) := by
  intro g
  induction g with
  | nil =>
    intro e he
    simp [addToGroup] at he
    exact Or.inr (Or.inr he)
  | cons p rest ih =>
    intro e he
    obtain ⟨k, grp⟩ := p
    by_cases hk : k = label
    · subst hk
      simp only [addToGroup, List.mem_cons, if_true, eq_self_iff_true] at he
      rcases he with he | he
      · exact Or.inr (Or.inl ⟨grp, List.mem_cons_self _ _, he⟩)
      · exact Or.inl (List.mem_cons_of_mem _ he)
    · simp only [addToGroup, List.mem_cons, if_neg hk] at he
      rcases he with he | he
      · exact Or.inl (by rw [he]; exact List.mem_cons_self _ _)
      · rcases ih e he with h1 | h2 | h3
        · exact Or.inl (List.mem_cons_of_mem _ h1)
        · obtain ⟨grp2, hg, he2⟩ := h2
          exact Or.inr (Or.inl ⟨grp2, List.mem_cons_of_mem _ hg, he2⟩)
        · exact Or.inr (Or.inr h3)

/-- The added file lands in the group keyed by its label. -/
theorem addToGroup_mem_self (label : String) (f : SibFile) :
    ∀ g : Grouped, ∃ grp, (label, grp) ∈ addToGroup g label f ∧
      f ∈ grp.files := by
  intro g
  induction g with
  | nil => exact ⟨⟨f.size, [f]⟩, by simp [addToGroup]⟩
  | cons p rest ih =>
    obtain ⟨k, grp⟩ := p
    by_cases hk : k = label
    · subst hk
      exact ⟨⟨grp.size + f.size, grp.files ++ [f]⟩, by simp [addToGroup]⟩
    · obtain ⟨grp2, hg, hf⟩ := ih
      exact ⟨grp2, by simp [addToGroup, hk, hg], hf⟩

/-- Files already filed stay in a group with the same key after
addToGroup. -/
theorem addToGroup_preserve (label : String) (f : SibFile) :
    ∀ (g : Grouped) (k : String) (grp : QuantGroup) (f0 : SibFile),
      (k, grp) ∈ g → f0 ∈ grp.files →
      ∃ grp2, (k, grp2) ∈ addToGroup g label f ∧ f0 ∈ grp2.files := by
  intro g
  induction g with
  | nil => intro k grp f0 h; simp at h
  | cons p rest ih =>
    intro k grp f0 hmem hf0
    obtain ⟨k1, grp1⟩ := p
    by_cases hk : k1 = label
    · subst hk
      rcases List.mem_cons.1 hmem with heq | hrest
      · rw [Prod.mk.injEq] at heq
        obtain ⟨hk1, hg1⟩ := heq
        subst hk1
        subst hg1
        exact ⟨⟨grp.size + f.size, grp.files ++ [f]⟩,
          by simp [addToGroup], by simp [hf0]⟩
      · exact ⟨grp, by simp [addToGroup, hrest], hf0⟩
    · rcases List.mem_cons.1 hmem with heq | hrest
      · refine ⟨grp, ?_, hf0⟩
        simp [addToGroup, hk, heq]
      · obtain ⟨grp2, h1, h2⟩ := ih k grp f0 hrest hf0
        exact ⟨grp2, by simp [addToGroup, hk, h1], h2⟩

/-- One stepEmit iteration preserves the grouped-dictionary invariant. -/
theorem GoodAcc_step (table : QuantTable) (g : Grouped) (f : SibFile)
    (hg : GoodAcc table g) : GoodAcc table (stepEmit table g f) := by
  unfold stepEmit
  cases hL : emittedLabel table f with
  | none => exact hg
  | some lab =>
    constructor
    · rw [addToGroup_keys]
      by_cases hm : lab ∈ g.map Prod.fst
      · simp only [if_pos hm]; exact hg.1
      · simp only [if_neg hm, List.nodup_append]
        exact ⟨hg.1, List.nodup_singleton _, by simpa using hm⟩
    · intro e he
      rcases addToGroup_mem_cases lab f g e he with h1 | h2 | h3
      · exact hg.2 e h1
      · obtain ⟨grp, hgr, he2⟩ := h2
        subst he2
        obtain ⟨hsize, hlabels⟩ := hg.2 (lab, grp) hgr
        refine ⟨by simpa using hsize, ?_⟩
        intro f0 hf0
        rcases List.mem_append.1 hf0 with h | h
        · exact hlabels f0 h
        · have : f0 = f := by simpa using h
          subst this
          exact hL
      · subst h3
        refine ⟨by simp, ?_⟩
        intro f0 hf0
        have : f0 = f := by simpa using hf0
        subst this
        exact hL

/-- The stepEmit fold preserves the grouped-dictionary invariant. -/
theorem GoodAcc_foldl (table : QuantTable) :
    ∀ (files : List SibFile) (g : Grouped), GoodAcc table g →
      GoodAcc table (files.foldl (stepEmit table) g) := by
  intro files
  induction files with
  | nil => intro g hg; exact hg
  | cons x t ih =>
    intro g hg
    rw [List.foldl_cons]
    exact ih _ (GoodAcc_step table g x hg)

/-- The empty grouped dictionary satisfies the invariant. -/
theorem GoodAcc_nil (table : QuantTable) : GoodAcc table [] :=
  ⟨List.nodup_nil, by intro e he; simp at he⟩

/-- One stepEmit iteration adds the file size exactly when the file has an
emitted label. -/
theorem stepEmit_total (table : QuantTable) (g : Grouped) (f : SibFile) :
    ((stepEmit table g f).map (fun e => e.2.size)).sum
      = (g.map (fun e => e.2.size)).sum
        + (match emittedLabel table f with
           | none => 0
           | some _ => f.size) := by
  unfold stepEmit
  cases hL : emittedLabel table f with
  | none => simp
  | some lab => simp [addToGroup_total]

/-- The total recorded size after the fold is the sum of the sizes of the
files with an emitted label. -/
theorem foldl_total (table : QuantTable) :
    ∀ (files : List SibFile) (g : Grouped),
      ((files.foldl (stepEmit table) g).map (fun e => e.2.size)).sum
        = (g.map (fun e => e.2.size)).sum
          + ((files.filter (fun f => (emittedLabel table f).isSome)).map
              SibFile.size).sum := by
  intro files
  induction files with
  | nil => intro g; simp
  | cons x t ih =>
    intro g
    rw [List.foldl_cons, ih, stepEmit_total, List.filter_cons]
    cases hL : emittedLabel table x with
    | none => simp [hL]
    | some lab => simp [hL]; omega

/-- Files already filed stay in a group with the same key through the
fold. -/
theorem foldl_stepEmit_preserve (table : QuantTable) :
    ∀ (files : List SibFile) (g : Grouped) (k : String) (grp : QuantGroup)
      (f0 : SibFile), (k, grp) ∈ g → f0 ∈ grp.files →
      ∃ grp2, (k, grp2) ∈ files.foldl (stepEmit table) g ∧
        f0 ∈ grp2.files := by
  intro files
  induction files with
  | nil => intro g k grp f0 h1 h2; exact ⟨grp, h1, h2⟩
  | cons x t ih =>
    intro g k grp f0 h1 h2
    rw [List.foldl_cons]
    unfold stepEmit
    cases hL : emittedLabel table x with
    | none => exact ih g k grp f0 h1 h2
    | some lab =>
      obtain ⟨grp2, hg2, hf2⟩ := addToGroup_preserve lab x g k grp f0 h1 h2
      exact ih _ k grp2 f0 hg2 hf2

/-- Every input file with an emitted label ends up in the group keyed by
that label. -/
theorem foldl_stepEmit_mem (table : QuantTable) :
    ∀ (files : List SibFile) (g : Grouped) (f0 : SibFile) (lab : String),
      f0 ∈ files → emittedLabel table f0 = some lab →
      ∃ grp, (lab, grp) ∈ files.foldl (stepEmit table) g ∧
        f0 ∈ grp.files := by
  intro files
  induction files with
  | nil => intro g f0 lab h; simp at h
  | cons x t ih =>
    intro g f0 lab hmem hlab
    rw [List.foldl_cons]
    rcases List.mem_cons.1 hmem with heq | hrest
    · subst heq
      have hstep : stepEmit table g f0 = addToGroup g lab f0 := by
        unfold stepEmit; rw [hlab]
      rw [hstep]
      obtain ⟨grp, hg, hf⟩ := addToGroup_mem_self lab f0 g
      exact foldl_stepEmit_preserve table t _ lab grp f0 hg hf
    · exact ih _ f0 lab hrest hlab

/-- The emitted keys of the fold extend the accumulator keys in
first-encounter order of the emitted labels. -/
theorem foldl_stepEmit_keys (table : QuantTable) :
    ∀ (files : List SibFile) (g : Grouped),
      (files.foldl (stepEmit table) g).map Prod.fst
        = (files.filterMap (emittedLabel table)).foldl
            (fun ks a => if a ∈ ks then ks else ks ++ [a])
            (g.map Prod.fst) := by
  intro files
  induction files with
  | nil => intro g; simp
  | cons x t ih =>
    intro g
    rw [List.foldl_cons, List.filterMap_cons]
    cases hL : emittedLabel table x with
    | none =>
      rw [ih]
      congr 1
      unfold stepEmit
      rw [hL]
    | some lab =>
      rw [List.foldl_cons, ih]
      congr 1
      have hstep : stepEmit table g x = addToGroup g lab x := by
        unfold stepEmit; rw [hL]
      rw [hstep, addToGroup_keys]

/-- A label produced by quantLabel starts with a table key, hence is
nonempty when every key is nonempty. -/
theorem quantLabel_ne_empty (table : QuantTable)
    (htable : ∀ kv ∈ table, kv.1 ≠ "") (name : String) (l : String)
    (h : quantLabel table name = some l) : l ≠ "" := by
  simp only [quantLabel] at h
  cases hf : table.find? (fun kv => pyIn kv.1 (pyUpper name)) with
  | none => rw [hf] at h; simp at h
  | some kv =>
    rw [hf] at h
    simp only [Option.some.injEq] at h
    have hmem : kv ∈ table := List.mem_of_find?_eq_some hf
    have hk : kv.1 ≠ "" := htable kv hmem
    intro hcon
    subst h
    apply hk
    have hdata : kv.1.data ++ (sizeVariant (pyUpper name)).data = [] := by
      have := congrArg String.data hcon
      simpa [String.append] using this
    have : kv.1.data = [] := (List.append_eq_nil.1 hdata).1
    cases kv1 : kv.1 with
    | mk d => rw [kv1] at this; simp at this; rw [this]

/-- With nonempty table keys, the filed label is exactly quantLabel. -/
theorem emittedLabel_eq_quantLabel (table : QuantTable)
    (htable : ∀ kv ∈ table, kv.1 ≠ "") (f : SibFile) :
    emittedLabel table f = quantLabel table f.rfilename := by
  unfold emittedLabel
  cases h : quantLabel table f.rfilename with
  | none => rfl
  | some l => simp [quantLabel_ne_empty table htable f.rfilename l h]

/-- group_split_files as the stepEmit fold started from the empty
dictionary. -/
theorem group_split_files_eq (table : QuantTable) (files : List SibFile) :
    group_split_files table files = files.foldl (stepEmit table) [] := by
  unfold group_split_files
  exact group_split_eq_stepEmit table files []

/-- C2 counterexample: on the specification example the first group is
labelled Q4_K_M_M, not Q4_K_M, because the size-variant scan re-finds the _M
already contained in the base key; so no group labelled Q4_K_M exists. -/
theorem c2_counterexample :
    (group_split_files T2 exampleFiles).map Prod.fst
      = ["Q4_K_M_M", "Q8_0"] := by decide

/-- C2 amended: for a table with the keys Q4_K_M and Q8_0, the three example
files produce exactly two groups in first-encounter order, labelled
Q4_K_M_M (8GB total, two members) and Q8_0 (9GB total, one member). -/
theorem c2_theorem (m1 m2 : ℚ) :
    group_split_files [("Q4_K_M", m1), ("Q8_0", m2)] exampleFiles
      = [("Q4_K_M_M", ⟨8 * 1024 ^ 3, [fQ4a, fQ4b]⟩),
         ("Q8_0", ⟨9 * 1024 ^ 3, [fQ8]⟩)] := rfl

/-- C7: a file whose uppercased name contains no table key is excluded from
every group; for a matching file the first matching key in table order gives
the base label; and the emitted keys follow first-encounter order of the
labels in the input sequence. -/
theorem c7_theorem (table : QuantTable) (files : List SibFile)
    (htable : ∀ kv ∈ table, kv.1 ≠ "") :
    (∀ f ∈ files, (∀ kv ∈ table, pyIn kv.1 (pyUpper f.rfilename) = false) →
      ∀ e ∈ group_split_files table files, f ∉ e.2.files) ∧
    (∀ (name : String) (i : ℕ) (k : String) (m : ℚ),
      table[i]? = some (k, m) → pyIn k (pyUpper name) = true →
      (∀ j, j < i → ∀ kv, table[j]? = some kv →
        pyIn kv.1 (pyUpper name) = false) →
      quantLabel table name = some (k ++ sizeVariant (pyUpper name))) ∧
    ((group_split_files table files).map Prod.fst
      = firstEnc (files.filterMap (fun f => quantLabel table f.rfilename)))
    := by
  refine ⟨?_, ?_, ?_⟩
  · intro f hf hnokey e he hcon
    have hq : quantLabel table f.rfilename = none := by
      simp only [quantLabel]
      rw [find?_eq_none_of_all _ table hnokey]
    have hgood := GoodAcc_foldl table files [] (GoodAcc_nil table)
    rw [group_split_files_eq] at he
    have hlab := (hgood.2 e he).2 f hcon
    have hnone : emittedLabel table f = none := by
      unfold emittedLabel; rw [hq]
    rw [hnone] at hlab
    exact Option.noConfusion hlab
  · intro name i k m hget hp hfirst
    have hfind := find?_eq_of_first (fun kv => pyIn kv.1 (pyUpper name))
      table i (k, m) hget hp hfirst
    simp only [quantLabel, hfind]
  · rw [group_split_files_eq, foldl_stepEmit_keys]
    have hcong : emittedLabel table
        = fun f => quantLabel table f.rfilename :=
      funext (emittedLabel_eq_quantLabel table htable)
    rw [hcong]
    rfl

/-- C10: the grouper partitions the matched files: keys are distinct, every
file with a label lands in the group keyed by that label, every recorded
size is the sum of the member sizes, and the grand total over all groups is
the total size of the matched files. -/
theorem c10_theorem (table : QuantTable) (files : List SibFile)
    (htable : ∀ kv ∈ table, kv.1 ≠ "") :
    ((group_split_files table files).map Prod.fst).Nodup ∧
    (∀ f ∈ files, ∀ lab, quantLabel table f.rfilename = some lab →
      ∃ grp, (lab, grp) ∈ group_split_files table files ∧ f ∈ grp.files) ∧
    (∀ e ∈ group_split_files table files,
      e.2.size = (e.2.files.map SibFile.size).sum ∧
      ∀ f ∈ e.2.files, quantLabel table f.rfilename = some e.1) ∧
    ((group_split_files table files).map (fun e => e.2.size)).sum
      = ((files.filter
          (fun f => (quantLabel table f.rfilename).isSome)).map
            SibFile.size).sum := by
  have hgood := GoodAcc_foldl table files [] (GoodAcc_nil table)
  rw [group_split_files_eq]
  refine ⟨hgood.1, ?_, ?_, ?_⟩
  · intro f hf lab hlab
    exact foldl_stepEmit_mem table files [] f lab hf
      (by rw [emittedLabel_eq_quantLabel table htable]; exact hlab)
  · intro e he
    obtain ⟨hs, hl⟩ := hgood.2 e he
    refine ⟨hs, fun f hf => ?_⟩
    rw [← emittedLabel_eq_quantLabel table htable]
    exact hl f hf
  · have hfc : files.filter (fun f => (emittedLabel table f).isSome)
        = files.filter (fun f => (quantLabel table f.rfilename).isSome) := by
      have hcong : emittedLabel table
          = fun f => quantLabel table f.rfilename :=
        funext (emittedLabel_eq_quantLabel table htable)
      rw [hcong]
    rw [foldl_total, hfc]
    simp

/-- The Python min fold returns a member attaining the least key. -/
theorem minFold_spec (key : VQ → ℚ) :
    ∀ (xs : List VQ) (x : VQ),
      (xs.foldl (fun b a => if key a < key b then a else b) x) ∈ x :: xs ∧
      ∀ y ∈ x :: xs,
        key (xs.foldl (fun b a => if key a < key b then a else b) x)
          ≤ key y := by
  intro xs
  induction xs with
  | nil =>
    intro x
    refine ⟨List.mem_cons_self _ _, ?_⟩
    intro y hy
    have : y = x := by simpa using hy
    subst this
    exact le_refl _
  | cons a t ih =>
    intro x
    rw [List.foldl_cons]
    obtain ⟨hmem, hbound⟩ := ih (if key a < key x then a else x)
    have hhead := hbound _ (List.mem_cons_self _ _)
    constructor
    · rcases List.mem_cons.1 hmem with h | h
      · by_cases hc : key a < key x
        · rw [if_pos hc] at h ⊢
          rw [h]
          simp
        · rw [if_neg hc] at h ⊢
          rw [h]
          simp
      · simp [List.mem_cons_of_mem, h]
    · intro y hy
      rcases List.mem_cons.1 hy with hx | hy2
      · rw [hx]
        by_cases hc : key a < key x
        · rw [if_pos hc] at hhead ⊢
          exact le_trans hhead (le_of_lt hc)
        · rw [if_neg hc] at hhead ⊢
          exact hhead
      · rcases List.mem_cons.1 hy2 with ha | ht
        · rw [ha]
          by_cases hc : key a < key x
          · rw [if_pos hc] at hhead ⊢
            exact hhead
          · rw [if_neg hc] at hhead ⊢
            exact le_trans hhead (not_lt.1 hc)
        · exact hbound y (List.mem_cons_of_mem _ ht)

/-- The Python max fold returns a member attaining the greatest key. -/
theorem maxFold_spec (key : VQ → ℚ) :
    ∀ (xs : List VQ) (x : VQ),
      (xs.foldl (fun b a => if key a > key b then a else b) x) ∈ x :: xs ∧
      ∀ y ∈ x :: xs,
        key y
          ≤ key (xs.foldl (fun b a => if key a > key b then a else b) x) := by
  intro xs
  induction xs with
  | nil =>
    intro x
    refine ⟨List.mem_cons_self _ _, ?_⟩
    intro y hy
    have : y = x := by simpa using hy
    subst this
    exact le_refl _
  | cons a t ih =>
    intro x
    rw [List.foldl_cons]
    obtain ⟨hmem, hbound⟩ := ih (if key a > key x then a else x)
    have hhead := hbound _ (List.mem_cons_self _ _)
    constructor
    · rcases List.mem_cons.1 hmem with h | h
      · by_cases hc : key a > key x
        · rw [if_pos hc] at h ⊢
          rw [h]
          simp
        · rw [if_neg hc] at h ⊢
          rw [h]
          simp
      · simp [List.mem_cons_of_mem, h]
    · intro y hy
      rcases List.mem_cons.1 hy with hx | hy2
      · rw [hx]
        by_cases hc : key a > key x
        · rw [if_pos hc] at hhead ⊢
          exact le_trans (le_of_lt hc) hhead
        · rw [if_neg hc] at hhead ⊢
          exact hhead
      · rcases List.mem_cons.1 hy2 with ha | ht
        · rw [ha]
          by_cases hc : key a > key x
          · rw [if_pos hc] at hhead ⊢
            exact hhead
          · rw [if_neg hc] at hhead ⊢
            exact le_trans (not_lt.1 hc) hhead
        · exact hbound y (List.mem_cons_of_mem _ ht)

/-- pyMinBy of a nonempty list is a member with the least key. -/
theorem pyMinBy_spec (key : VQ → ℚ) (l : List VQ) (hl : l ≠ []) :
    ∃ e, pyMinBy key l = some e ∧ e ∈ l ∧ ∀ y ∈ l, key e ≤ key y := by
  cases l with
  | nil => exact absurd rfl hl
  | cons x xs =>
    obtain ⟨hmem, hbound⟩ := minFold_spec key xs x
    exact ⟨_, rfl, hmem, hbound⟩

/-- pyMaxBy of a nonempty list is a member with the greatest key. -/
theorem pyMaxBy_spec (key : VQ → ℚ) (l : List VQ) (hl : l ≠ []) :
    ∃ e, pyMaxBy key l = some e ∧ e ∈ l ∧ ∀ y ∈ l, key y ≤ key e := by
  cases l with
  | nil => exact absurd rfl hl
  | cons x xs =>
    obtain ⟨hmem, hbound⟩ := maxFold_spec key xs x
    exact ⟨_, rfl, hmem, hbound⟩

/-- The viable_quants accumulation loop keeps exactly the groups whose label
does not contain Too large, mapping each to its display entry. -/
theorem viableQuants_build (table : QuantTable) (ram_gb vram_gb : ℚ) :
    ∀ (l : Grouped) (acc : List VQ),
      l.foldl (fun acc e =>
        let estimated_ram_needed :=
          estimate_ram_requirement table e.1 e.2.size
        let performance_label :=
          get_performance_label estimated_ram_needed ram_gb vram_gb
        if pyIn "Too large" performance_label then acc
        else acc ++ [(e.1, ((e.2.size : ℚ) / (1024 ^ 3),
          performance_label))]) acc
      = acc ++ (l.filter (fun e => !pyIn "Too large"
            (get_performance_label
              (estimate_ram_requirement table e.1 e.2.size)
              ram_gb vram_gb))).map
          (fun e => (e.1, ((e.2.size : ℚ) / (1024 ^ 3),
            get_performance_label
              (estimate_ram_requirement table e.1 e.2.size)
              ram_gb vram_gb))) := by
  intro l
  induction l with
  | nil => simp
  | cons x t ih =>
    intro acc
    rw [List.foldl_cons, List.filter_cons]
    cases hp : pyIn "Too large"
        (get_performance_label
          (estimate_ram_requirement table x.1 x.2.size) ram_gb vram_gb) with
    | true => simp [hp, ih]
    | false => simp [hp, ih]

/-- C6: the viable list excludes groups classified Too large and is sorted
ascending by size; the recommendation is the smallest viable entry when all
are Will be slow, else the largest GPU-Ready entry when one exists, else the
largest plain Ready entry when one exists, else the smallest Will be slow
entry. -/
theorem c6_theorem (table : QuantTable) (ram_gb vram_gb : ℚ)
    (grouped : Grouped) (v : List VQ) :
    (∀ e ∈ viableQuants table ram_gb vram_gb grouped,
      pyIn "Too large" e.2.2 = false) ∧
    ((viableQuants table ram_gb vram_gb grouped).Pairwise
      (fun a b => a.2.1 ≤ b.2.1)) ∧
    (v ≠ [] → (∀ e ∈ v, pyIn "Will be slow" e.2.2 = true) →
      ∃ e, e ∈ v ∧ recommendQuant v = some e.1 ∧
        ∀ y ∈ v, e.2.1 ≤ y.2.1) ∧
    (¬ (∀ e ∈ v, pyIn "Will be slow" e.2.2 = true) →
      gpu_ready_quants v ≠ [] →
      ∃ e, e ∈ gpu_ready_quants v ∧ recommendQuant v = some e.1 ∧
        ∀ y ∈ gpu_ready_quants v, y.2.1 ≤ e.2.1) ∧
    (¬ (∀ e ∈ v, pyIn "Will be slow" e.2.2 = true) →
      gpu_ready_quants v = [] → ready_quants v ≠ [] →
      ∃ e, e ∈ ready_quants v ∧ recommendQuant v = some e.1 ∧
        ∀ y ∈ ready_quants v, y.2.1 ≤ e.2.1) ∧
    (¬ (∀ e ∈ v, pyIn "Will be slow" e.2.2 = true) →
      gpu_ready_quants v = [] → ready_quants v = [] → slow_quants v ≠ [] →
      ∃ e, e ∈ slow_quants v ∧ recommendQuant v = some e.1 ∧
        ∀ y ∈ slow_quants v, e.2.1 ≤ y.2.1) := by
  refine ⟨?_, ?_, ?_, ?_, ?_, ?_⟩
  · intro e he
    unfold viableQuants at he
    rw [List.mem_insertionSort, viableQuants_build] at he
    simp only [List.nil_append, List.mem_map, List.mem_filter] at he
    obtain ⟨x, ⟨hx, hfilt⟩, hex⟩ := he
    rw [← hex]
    simpa using hfilt
  · unfold viableQuants
    exact List.sorted_insertionSort vqLE _
  · intro hne hall
    have hallb : v.all (fun e => pyIn "Will be slow" e.2.2) = true :=
      List.all_eq_true.2 hall
    obtain ⟨e, hmin, hmem, hbound⟩ := pyMinBy_spec (fun x => x.2.1) v hne
    refine ⟨e, hmem, ?_, hbound⟩
    simp only [recommendQuant, hallb, if_true, hmin, Option.map_some]
    rfl
  · intro hnall hgne
    have hallb : v.all (fun e => pyIn "Will be slow" e.2.2) = false := by
      rw [Bool.eq_false_iff]
      intro h
      exact hnall (List.all_eq_true.1 h)
    obtain ⟨e, hmax, hmem, hbound⟩ :=
      pyMaxBy_spec (fun x => x.2.1) (gpu_ready_quants v) hgne
    refine ⟨e, hmem, ?_, hbound⟩
    have hie : (gpu_ready_quants v).isEmpty = false := by
      rw [List.isEmpty_eq_false]
      exact hgne
    simp only [recommendQuant, hallb, Bool.false_eq_true, if_false, hie,
      Bool.not_false, if_true, hmax, Option.map_some]
    rfl
  · intro hnall hge hrne
    have hallb : v.all (fun e => pyIn "Will be slow" e.2.2) = false := by
      rw [Bool.eq_false_iff]
      intro h
      exact hnall (List.all_eq_true.1 h)
    obtain ⟨e, hmax, hmem, hbound⟩ :=
      pyMaxBy_spec (fun x => x.2.1) (ready_quants v) hrne
    refine ⟨e, hmem, ?_, hbound⟩
    have hie : (ready_quants v).isEmpty = false := by
      rw [List.isEmpty_eq_false]
      exact hrne
    simp only [recommendQuant, hallb, Bool.false_eq_true, if_false, hge,
      List.isEmpty_nil, Bool.not_true, hie, Bool.not_false, if_true,
      hmax, Option.map_some]
    rfl
  · intro hnall hge hre hsne
    have hallb : v.all (fun e => pyIn "Will be slow" e.2.2) = false := by
      rw [Bool.eq_false_iff]
      intro h
      exact hnall (List.all_eq_true.1 h)
    obtain ⟨e, hmin, hmem, hbound⟩ :=
      pyMinBy_spec (fun x => x.2.1) (slow_quants v) hsne
    refine ⟨e, hmem, ?_, hbound⟩
    simp only [recommendQuant, hallb, Bool.false_eq_true, if_false, hge, hre,
      List.isEmpty_nil, Bool.not_true, hmin, Option.map_some]
    rfl

/-- C8 amended: the key is matched as written against the uppercased file
name only.  For a key already in uppercase this agrees with the
specification form that uppercases both sides, and both the estimator and
the grouper treat file names equal up to case identically. -/
theorem c8_theorem (table : QuantTable) (k n n2 : String) (bytes : ℕ)
    (hk : pyUpper k = k) (hn : pyUpper n = pyUpper n2) :
    pyIn k (pyUpper n) = pyIn (pyUpper k) (pyUpper n) ∧
    estimate_ram_requirement table n bytes
      = estimate_ram_requirement table n2 bytes ∧
    quantLabel table n = quantLabel table n2 := by
  refine ⟨by rw [hk], ?_, ?_⟩
  · simp only [estimate_ram_requirement, hn]
  · simp only [quantLabel, hn]

/-- C9: a URL without the host marker is rejected with the invalid-URL
outcome whatever the repository lookup does (so before any lookup), and a
failing lookup ends the analysis with the model-not-found outcome, with no
estimation or rendering. -/
theorem c9_theorem (table : QuantTable)
    (mi : String → Option (List SibFile)) (ram_gb vram_gb : ℚ)
    (repo_url : String) :
    (pyIn "huggingface.co/" repo_url = false →
      ∀ mi2 : String → Option (List SibFile),
        analyze_huggingface_url table mi2 ram_gb vram_gb repo_url
          = Outcome.invalidUrl) ∧
    (∀ path_part, pyIn "huggingface.co/" repo_url = true →
      parsedPathPart repo_url = some path_part →
      mi (repoIdOf path_part) = none →
      analyze_huggingface_url table mi ram_gb vram_gb repo_url
        = Outcome.modelNotFound) := by
  constructor
  · intro h mi2
    simp [analyze_huggingface_url, h]
  · intro path_part h1 h2 h3
    simp [analyze_huggingface_url, h1, h2, h3]

/-- C1 amended: in the single-blob path, when the exact requested file is
absent from the listing the analyzer emits no not-found message and instead
falls through into the whole-repository analysis of analyzeRepo. -/
theorem c1_theorem (table : QuantTable)
    (mi : String → Option (List SibFile)) (ram_gb vram_gb : ℚ)
    (files : List SibFile)
    (hmi : mi "TheBloke/X-GGUF" = some files)
    (habs : ∀ f ∈ files, f.rfilename ≠ "missing.gguf") :
    analyze_huggingface_url table mi ram_gb vram_gb
      "https://huggingface.co/TheBloke/X-GGUF/blob/main/missing.gguf"
      = analyzeRepo table mi ram_gb vram_gb "TheBloke/X-GGUF"
          "TheBloke/X-GGUF/blob/main/missing.gguf" := by
  have hfind : files.find? (fun f => f.rfilename = "missing.gguf")
      = none := by
    rw [List.find?_eq_none]
    intro f hf
    simp [habs f hf]
  have hurl : pyIn "huggingface.co/"
      "https://huggingface.co/TheBloke/X-GGUF/blob/main/missing.gguf"
      = true := by decide
  have hpp : parsedPathPart
      "https://huggingface.co/TheBloke/X-GGUF/blob/main/missing.gguf"
      = some "TheBloke/X-GGUF/blob/main/missing.gguf" := by decide
  have hrid : repoIdOf "TheBloke/X-GGUF/blob/main/missing.gguf"
      = "TheBloke/X-GGUF" := by decide
  have hblob : pyIn "/blob/main/" "TheBloke/X-GGUF/blob/main/missing.gguf"
      = true := by decide
  have hbrk : breakOnS "/blob/main/" "TheBloke/X-GGUF/blob/main/missing.gguf"
      = ("TheBloke/X-GGUF", some "missing.gguf") := by decide
  simp only [analyze_huggingface_url, hurl, eq_self_iff_true, if_true, hpp,
    hrid, hmi, hblob, hbrk, Option.getD_some, hfind]

section
attribute [local semireducible] Rat.mul Rat.inv Rat.add Rat.sub

/-- C1 counterexample: with the missing-file URL the analyzer renders the
whole-repository GGUF table (estimation, classification and recommendation
included) instead of a not-found message. -/
theorem c1_counterexample :
    analyze_huggingface_url T2 miGGUF 16 0
      "https://huggingface.co/TheBloke/X-GGUF/blob/main/missing.gguf"
      = Outcome.ggufAnalysis [("Q4_K_M_M", (4, "[green]Ready[/green]"))]
          "Q4_K_M_M" := by decide

/-- C1 witness: the fall-through at a concrete table and listing. -/
theorem c1_witness :
    analyze_huggingface_url T2 miGGUF 16 0
      "https://huggingface.co/TheBloke/X-GGUF/blob/main/missing.gguf"
      = analyzeRepo T2 miGGUF 16 0 "TheBloke/X-GGUF"
          "TheBloke/X-GGUF/blob/main/missing.gguf" :=
  c1_theorem T2 miGGUF 16 0 [⟨"model-Q4_K_M.gguf", 4 * 1024 ^ 3⟩]
    (by decide) (by decide)

/-- C3 witness: the estimator at the Q4_K_M key of the concrete table. -/
theorem c3_witness :
    estimate_ram_requirement T2 "model-Q4_K_M.gguf" (1024 ^ 3)
      = (((1024 ^ 3 : ℕ) : ℚ) / 1024 ^ 3) * (13 / 10 + 1 / 10) :=
  (c3_theorem T2 "model-Q4_K_M.gguf" (1024 ^ 3)).1 0 "Q4_K_M" (13 / 10)
    rfl (by decide) (fun j hj kv hkv => absurd hj (Nat.not_lt_zero j))

/-- C4 witness: at 16GB RAM both table entries fit for a 4GB model and the
later table entry wins. -/
theorem c4_witness :
    get_best_quantization T2 16 0 4 ["Q4_K_M", "Q8_0"] = "Q8_0" :=
  (c4_theorem T2 16 0 4 ["Q4_K_M", "Q8_0"]).2 "Q8_0" (by decide)

/-- C5 witness: one concrete instance of each classification rule. -/
theorem c5_witness :
    get_performance_label 4 16 8 = "[green]GPU-Ready[/green]" ∧
    get_performance_label 20 16 0 = "[red]Too large[/red]" ∧
    get_performance_label 10 16 0 = "[yellow]Will be slow[/yellow]" ∧
    get_performance_label 4 16 0 = "[green]Ready[/green]" :=
  ⟨(c5_theorem 4 16 8).1 (by decide),
   (c5_theorem 20 16 0).2.1 (by decide) (by decide),
   (c5_theorem 10 16 0).2.2.1 (by decide) (by decide) (by decide),
   (c5_theorem 4 16 0).2.2.2 (by decide) (by decide) (by decide)⟩

/-- C6 witness: the Too-large exclusion on a concrete grouped dictionary and
the GPU-Ready recommendation rule on a concrete viable list. -/
theorem c6_witness :
    (∀ e ∈ viableQuants T2 16 0 groupedDemo,
      pyIn "Too large" e.2.2 = false) ∧
    (∃ e, e ∈ gpu_ready_quants vDemo ∧ recommendQuant vDemo = some e.1 ∧
      ∀ y ∈ gpu_ready_quants vDemo, y.2.1 ≤ e.2.1) :=
  ⟨(c6_theorem T2 16 0 groupedDemo vDemo).1,
   (c6_theorem T2 16 0 groupedDemo vDemo).2.2.2.1 (by decide) (by decide)⟩

/-- C7 witness: exclusion of an unmatched file, the base label of the first
matching key, and the first-encounter key order, all at concrete inputs. -/
theorem c7_witness :
    (∀ e ∈ group_split_files T2 [fQ4a, fOther], fOther ∉ e.2.files) ∧
    quantLabel T2 "model-Q4_K_M-00001.gguf"
      = some ("Q4_K_M" ++ sizeVariant (pyUpper "model-Q4_K_M-00001.gguf")) ∧
    ((group_split_files T2 exampleFiles).map Prod.fst
      = firstEnc (exampleFiles.filterMap
          (fun f => quantLabel T2 f.rfilename))) :=
  ⟨fun e he => (c7_theorem T2 [fQ4a, fOther] (by decide)).1 fOther
      (by decide) (by decide) e he,
   (c7_theorem T2 exampleFiles (by decide)).2.1 "model-Q4_K_M-00001.gguf" 0
     "Q4_K_M" (13 / 10) rfl (by decide)
     (fun j hj kv hkv => absurd hj (Nat.not_lt_zero j)),
   (c7_theorem T2 exampleFiles (by decide)).2.2⟩

/-- C8 counterexample: for the lowercase key q4_k_m the uppercased forms of
key and file name do match as substrings, yet the estimator falls back to
the default 2.6 multiplier and the grouper drops the file: matching does not
uppercase the key. -/
theorem c8_counterexample :
    pyIn (pyUpper "q4_k_m") (pyUpper "model-q4_k_m.gguf") = true ∧
    estimate_ram_requirement [("q4_k_m", 1)] "model-q4_k_m.gguf" (1024 ^ 3)
      = 26 / 10 ∧
    group_split_files [("q4_k_m", 1)] [⟨"model-q4_k_m.gguf", 1024 ^ 3⟩]
      = [] := by
  refine ⟨by decide, by decide, by decide⟩

/-- C8 witness: an uppercase key matched against one lowercase and one
uppercase spelling of the same name. -/
theorem c8_witness :
    (pyIn "Q4_K_M" (pyUpper "model-q4_k_m.gguf")
      = pyIn (pyUpper "Q4_K_M") (pyUpper "model-q4_k_m.gguf")) ∧
    estimate_ram_requirement T2 "model-q4_k_m.gguf" (1024 ^ 3)
      = estimate_ram_requirement T2 "MODEL-Q4_K_M.GGUF" (1024 ^ 3) ∧
    quantLabel T2 "model-q4_k_m.gguf" = quantLabel T2 "MODEL-Q4_K_M.GGUF" :=
  c8_theorem T2 "Q4_K_M" "model-q4_k_m.gguf" "MODEL-Q4_K_M.GGUF" (1024 ^ 3)
    (by decide) (by decide)

/-- C9 witness: a marker-free string is rejected, and an unknown repository
reports model-not-found. -/
theorem c9_witness :
    analyze_huggingface_url T2 miNone 16 0 "not-a-url"
      = Outcome.invalidUrl ∧
    analyze_huggingface_url T2 miNone 16 0 "https://huggingface.co/foo/bar"
      = Outcome.modelNotFound :=
  ⟨(c9_theorem T2 miNone 16 0 "not-a-url").1 (by decide) miNone,
   (c9_theorem T2 miNone 16 0 "https://huggingface.co/foo/bar").2 "foo/bar"
     (by decide) (by decide) (by decide)⟩

/-- C10 witness: distinct keys and the membership of a concrete shard in the
group keyed by its label. -/
theorem c10_witness :
    ((group_split_files T2 exampleFiles).map Prod.fst).Nodup ∧
    (∃ grp, ("Q4_K_M_M", grp) ∈ group_split_files T2 exampleFiles ∧
      fQ4a ∈ grp.files) :=
  ⟨(c10_theorem T2 exampleFiles (by decide)).1,
   (c10_theorem T2 exampleFiles (by decide)).2.1 fQ4a (by decide) "Q4_K_M_M"
     (by decide)⟩

end

end HFChecker
